import Mathlib

/-!
Verification of `pluto.py` (pluto-for-channels): a shallow embedding in Lean 4
of the device-identity pool, token caching, catalog numbering, multi-region
merge, EPG deduplication and guide-builder episode-numbering logic, together
with theorems settling the specification's claims about them.
-/

set_option maxHeartbeats 1000000
set_option maxRecDepth 8000

namespace Pluto

/-! ## Channel records

`Client.channels` builds, for each source channel element, a record
`{id, name, slug, tmsid, summary, group, country_code, number, logo}`.
-/

structure ChannelRec where
  id : String
  name : String
  slug : String
  tmsid : String
  summary : String
  group : Option String
  country_code : String
  number : Nat
  logo : Option String
  deriving DecidableEq, Repr

/-! ## Collision bumping

Embedding of the Python loop `while number in existing_numbers: number += 1`
(used in `Client.channels` and, against a single global `seen` set, in
`Client.channels_all`).  `used` is the collection of already-taken numbers;
membership of any value strictly above the current candidate is unaffected by
erasing the current candidate, so the structural recursion below computes the
same result as the source's loop.
-/

def bumpFree (used : List Nat) (n : Nat) : Nat :=
  if n ∈ used then bumpFree (used.erase n) (n + 1) else n
termination_by used.length
decreasing_by
  have hmem : n ∈ used := by assumption
  rw [List.length_erase_of_mem hmem]
  exact Nat.sub_lt (List.length_pos.mpr (List.ne_nil_of_mem hmem)) Nat.one_pos

theorem bumpFree_ge (used : List Nat) (n : Nat) : n ≤ bumpFree used n := by
  induction used, n using bumpFree.induct with
  | case1 used n hmem ih =>
      rw [bumpFree, if_pos hmem]
      exact Nat.le_trans (Nat.le_succ n) ih
  | case2 used n hmem =>
      rw [bumpFree, if_neg hmem]

theorem bumpFree_not_mem (used : List Nat) (n : Nat) : bumpFree used n ∉ used := by
  induction used, n using bumpFree.induct with
  | case1 used n hmem ih =>
      rw [bumpFree, if_pos hmem]
      intro hin
      have hne : bumpFree (used.erase n) (n + 1) ≠ n := by
        have := bumpFree_ge (used.erase n) (n + 1)
        omega
      exact ih ((List.mem_erase_of_ne hne).mpr hin)
  | case2 used n hmem =>
      rw [bumpFree, if_neg hmem]
      exact hmem

/-- A candidate below every element of `used` is not bumped at all. -/
theorem bumpFree_of_not_mem (used : List Nat) (n : Nat) (h : n ∉ used) :
    bumpFree used n = n := by
  rw [bumpFree, if_neg h]

/-! ## `Client.channels`: per-region catalog construction

Source element of the channel-listing response, with the fields the builder
reads: `id`, `name`, `slug`, `tmsid`, `summary`, `number`, `images`
(a list of `(type, url)` pairs).
-/

structure SrcChannel where
  id : String
  name : String
  slug : String
  tmsid : String
  summary : String
  number : Nat
  images : List (String × String)
  deriving DecidableEq, Repr

/-- `next((image["url"] for image in elem["images"] if image["type"] == "colorLogoPNG"), None)`. -/
def colorLogoPNG (images : List (String × String)) : Option String :=
  (images.find? (fun im => im.1 = "colorLogoPNG")).map Prod.snd

/-- One iteration of the station-building loop in `Client.channels`
(lines 248-269): build the entry, bump its number past all numbers already
assigned in the partially-built catalog, and append it. -/
def buildStation (categories_list : String → Option String) (country_code : String)
    (stations : List ChannelRec) (elem : SrcChannel) : List ChannelRec :=
  let number := bumpFree (stations.map ChannelRec.number) elem.number
  stations ++ [{
    id := elem.id
    name := elem.name
    slug := elem.slug
    tmsid := elem.tmsid
    summary := elem.summary
    group := categories_list elem.id
    country_code := country_code
    number := number
    logo := colorLogoPNG elem.images }]

/-- The station-building loop of `Client.channels`: numbers are assigned in
source order, each bumped until free against the numbers already taken. -/
def buildStations (categories_list : String → Option String) (country_code : String)
    (channel_list : List SrcChannel) : List ChannelRec :=
  channel_list.foldl (buildStation categories_list country_code) []

/-- `sorted(stations, key=lambda x: x["number"])` — Python's sort is stable;
`List.mergeSort` with a total `≤` on the key is stable as well. -/
def sortStations (stations : List ChannelRec) : List ChannelRec :=
  stations.mergeSort (fun a b => a.number ≤ b.number)

/-- `Client.channels` catalog value for one region, given the decoded channel
list and the category map (the network/token plumbing is modelled separately). -/
def channelsCatalog (categories_list : String → Option String) (country_code : String)
    (channel_list : List SrcChannel) : List ChannelRec :=
  sortStations (buildStations categories_list country_code channel_list)

theorem buildStations_append (cats : String → Option String) (cc : String)
    (l : List SrcChannel) (e : SrcChannel) :
    buildStations cats cc (l ++ [e]) =
      buildStation cats cc (buildStations cats cc l) e := by
  simp [buildStations, List.foldl_append]

/-- Each assigned number avoids all previously assigned ones, so the numbers of
the partially-built catalog are pairwise distinct. -/
theorem buildStations_numbers_nodup (cats : String → Option String) (cc : String)
    (channel_list : List SrcChannel) :
    ((buildStations cats cc channel_list).map ChannelRec.number).Nodup := by
  induction channel_list using List.reverseRecOn with
  | nil => simp [buildStations]
  | append_singleton l e ih =>
      rw [buildStations_append]
      unfold buildStation
      rw [List.map_append, List.nodup_append]
      refine ⟨ih, by simp, ?_⟩
      intro a ha
      simp only [List.map_cons, List.map_nil, List.mem_singleton]
      intro hb
      subst hb
      exact (bumpFree_not_mem _ _) ha

/-! ## Identity pool: `Client._next_slot` / `Client.get_stream_token`

`Client.__init__` builds `self._pool` with `STREAM_POOL_SIZE` slots and sets
`self._pool_index = 0`.  `_next_slot` reads
`self._pool[self._pool_index % STREAM_POOL_SIZE]` and increments the index;
`get_stream_token` calls `_next_slot` and then `boot` on the chosen slot.
We model the slot *index* handed out by each sequential call, with the pool
size (`STREAM_POOL_SIZE`, 10 in the source) as a parameter `N`.
-/

def STREAM_POOL_SIZE : Nat := 10

/-- `_next_slot`: returns the chosen pool index and the updated `_pool_index`. -/
def nextSlot (N : Nat) (pool_index : Nat) : Nat × Nat :=
  (pool_index % N, pool_index + 1)

/-- Value of `_pool_index` after `k` sequential `get_stream_token` calls on a
freshly constructed `Client` (`_pool_index` starts at `0`). -/
def poolIndexAfter (N : Nat) : Nat → Nat
  | 0 => 0
  | k + 1 => (nextSlot N (poolIndexAfter N k)).2

/-- Pool index used by the `k`-th (1-indexed) sequential `get_stream_token` call. -/
def streamSlotOfCall (N : Nat) (k : Nat) : Nat :=
  (nextSlot N (poolIndexAfter N (k - 1))).1

theorem poolIndexAfter_eq (N k : Nat) : poolIndexAfter N k = k := by
  induction k with
  | zero => rfl
  | succ k ih => simp [poolIndexAfter, nextSlot, ih]

theorem streamSlotOfCall_eq (N k : Nat) : streamSlotOfCall N k = (k - 1) % N := by
  simp [streamSlotOfCall, nextSlot, poolIndexAfter_eq]

/-- The pool index `resp_data` delegates metadata refreshes to:
`self._pool[0].boot(country_code, self.x_forward)` (line 178). -/
def respDataSlot : Nat := 0

/-- C1: for a freshly constructed `Client` with pool size `N`, sequential
`get_stream_token` call `k` uses pool slot `(k-1) % N`; the first `N` calls use
the `N` distinct slots in creation order `0, 1, ..., N-1`; and call `N+1` uses
the same slot as call `1`. -/
theorem get_stream_token_round_robin (N k : Nat) (hk : 1 ≤ k) :
    streamSlotOfCall N k = (k - 1) % N ∧
    (List.range N).map (fun j => streamSlotOfCall N (j + 1)) = List.range N ∧
    streamSlotOfCall N (N + 1) = streamSlotOfCall N 1 := by
  refine ⟨streamSlotOfCall_eq N k, ?_, ?_⟩
  · have : ∀ j ∈ List.range N, streamSlotOfCall N (j + 1) = id j := by
      intro j hj
      rw [List.mem_range] at hj
      simp [streamSlotOfCall_eq, Nat.mod_eq_of_lt hj]
    rw [List.map_congr_left this, List.map_id]
  · simp [streamSlotOfCall_eq, Nat.mod_self]

/-- Witness for C1 at the source's pool size `STREAM_POOL_SIZE = 10`, call 11. -/
theorem get_stream_token_round_robin_witness :
    1 ≤ 11 ∧
    (streamSlotOfCall STREAM_POOL_SIZE 11 = (11 - 1) % STREAM_POOL_SIZE ∧
     (List.range STREAM_POOL_SIZE).map (fun j => streamSlotOfCall STREAM_POOL_SIZE (j + 1)) =
       List.range STREAM_POOL_SIZE ∧
     streamSlotOfCall STREAM_POOL_SIZE (STREAM_POOL_SIZE + 1) =
       streamSlotOfCall STREAM_POOL_SIZE 1) :=
  ⟨by decide, get_stream_token_round_robin STREAM_POOL_SIZE 11 (by decide)⟩

/-- C3 counterexample: `resp_data` refreshes metadata tokens through pool slot
`0` (`self._pool[0]`), and the round-robin rotation of `get_stream_token` hands
out exactly that slot on the very first call of a fresh `Client` — so the
metadata slot is *not* kept off the stream-facing rotation. -/
theorem resp_data_slot_in_rotation_cex :
    streamSlotOfCall STREAM_POOL_SIZE 1 = respDataSlot := by
  decide

/-- C3 amended: `resp_data` obtains metadata tokens from pool slot 0, which is
part of the round-robin pool used for stream requests: for every pool size `N`,
each sequential stream call numbered `j*N + 1` (calls 1, N+1, 2N+1, ...) uses
that same slot 0. -/
theorem resp_data_uses_pool_slot_zero (N j : Nat) :
    respDataSlot = 0 ∧ streamSlotOfCall N (j * N + 1) = respDataSlot := by
  refine ⟨rfl, ?_⟩
  simp [streamSlotOfCall_eq, respDataSlot, Nat.mul_mod_left]

/-! ## `StreamSession.boot`: per-region token cache with 4-hour freshness

A slot's state is its `response_list` (region → decoded boot JSON) and
`sessionAt` (region → issue time).  We model the decoded JSON as an
association list of string fields (the code only reads `sessionToken` from
it), timestamps as seconds since `datetime.min` (so the `datetime.min`
default used for a never-seen region is `0`), and the outbound
`session.get('https://boot.pluto.tv/v4/start', ...)` by an oracle value: the
call either raises an exception or yields a response with a status code, a
body text and a decoded JSON object.  `BootResult.calls` counts how many
outbound authentication requests the call performed (0 or 1).
-/

abbrev Resp := List (String × String)

def fourHours : Nat := 4 * 3600

structure SlotState where
  response_list : List (String × Resp)
  sessionAt : List (String × Nat)
  deriving DecidableEq, Repr

/-- Python dict assignment `d[k] = v`: replaces in place or appends. -/
def dictSet {α : Type} (m : List (String × α)) (k : String) (v : α) :
    List (String × α) :=
  match m with
  | [] => [(k, v)]
  | (k', v') :: rest => if k' = k then (k, v) :: rest else (k', v') :: dictSet rest k v

inductive NetOutcome where
  | exc (name : String)
  | http (status : Nat) (text : String) (json : Resp)
  deriving DecidableEq, Repr

structure BootResult where
  resp : Option Resp
  error : Option String
  calls : Nat
  state : SlotState
  deriving DecidableEq, Repr

/-- The cached-token freshness test of `StreamSession.boot` (lines 40-42):
`response_list.get(cc) is not None and
 (current_date - sessionAt.get(cc, datetime.min)) < timedelta(hours=4)`.
A negative Python timedelta compares `< 4h` just as truncated `Nat`
subtraction yields `0 < fourHours`. -/
def isFresh (st : SlotState) (now : Nat) (cc : String) : Bool :=
  (st.response_list.lookup cc).isSome &&
    (now - ((st.sessionAt.lookup cc).getD 0) < fourHours)

/-- `StreamSession.boot(country_code, x_forward)`: return the cached response
while fresh; otherwise perform one authentication request, and cache the
decoded response and its issue time on a 200/201 status. -/
def boot (st : SlotState) (now : Nat) (cc : String) (net : NetOutcome) : BootResult :=
  if isFresh st now cc then
    { resp := st.response_list.lookup cc, error := none, calls := 0, state := st }
  else
    match net with
    | .exc name =>
        { resp := none, error := some ("Error Exception type: " ++ name),
          calls := 1, state := st }
    | .http status text json =>
        if 200 ≤ status ∧ status ≤ 201 then
          { resp := some json, error := none, calls := 1,
            state := { response_list := dictSet st.response_list cc json,
                       sessionAt := dictSet st.sessionAt cc now } }
        else
          { resp := none,
            error := some ("HTTP failure " ++ toString status ++ ": " ++ text),
            calls := 1, state := st }

theorem lookup_dictSet {α : Type} (m : List (String × α)) (k : String) (v : α) :
    (dictSet m k v).lookup k = some v := by
  induction m with
  | nil => simp [dictSet, List.lookup]
  | cons p rest ih =>
      obtain ⟨k', v'⟩ := p
      by_cases h : k' = k
      · simp [dictSet, h, List.lookup]
      · simp only [dictSet, if_neg h]
        have hne : (k == k') = false := by
          simp [beq_eq_false_iff_ne, Ne.symm h]
        simp [List.lookup, hne, ih]

/-- C2: `boot` returns a cached token issued less than 4 hours ago without any
outbound authentication call; on an absent or ≥4-hour-old token it performs
exactly one authentication call, and on a 200/201 response the new token and
its issue time replace the cache entries for that region. -/
theorem boot_token_cache_policy (st : SlotState) (now : Nat) (cc : String) :
    (∀ r t, st.response_list.lookup cc = some r → st.sessionAt.lookup cc = some t →
      now - t < fourHours →
      ∀ net, boot st now cc net =
        { resp := some r, error := none, calls := 0, state := st }) ∧
    (st.response_list.lookup cc = none ∨
        (∃ t, st.sessionAt.lookup cc = some t ∧ fourHours ≤ now - t) →
      ∀ net, (boot st now cc net).calls = 1 ∧
        ∀ status text json, 200 ≤ status → status ≤ 201 → net = .http status text json →
          (boot st now cc net).resp = some json ∧
          (boot st now cc net).state.response_list.lookup cc = some json ∧
          (boot st now cc net).state.sessionAt.lookup cc = some now) := by
  constructor
  · intro r t hr ht hlt net
    simp [boot, isFresh, hr, ht, hlt]
  · intro h net
    have hfresh : isFresh st now cc = false := by
      rcases h with hnone | ⟨t, ht, hge⟩
      · simp [isFresh, hnone]
      · simp [isFresh, ht]
        intro _
        omega
    refine ⟨?_, ?_⟩
    · cases net with
      | exc name => simp [boot, hfresh]
      | http status text json =>
          by_cases hs : 200 ≤ status ∧ status ≤ 201 <;> simp [boot, hfresh, hs]
    · intro status text json h200 h201 hnet
      subst hnet
      refine ⟨?_, ?_, ?_⟩ <;>
        simp [boot, hfresh, h200, h201, lookup_dictSet]

def respFreshEx : Resp := [("sessionToken", "tok1")]

def respNewEx : Resp := [("sessionToken", "tok2")]

def slotFreshEx : SlotState :=
  { response_list := [("uk", respFreshEx)], sessionAt := [("uk", 10000)] }

def slotStaleEx : SlotState :=
  { response_list := [("uk", respFreshEx)], sessionAt := [("uk", 1000)] }

/-- Witness for C2: at time 20000 s, a token issued at 10000 s (< 4 h old) is
served from cache with no call; a token issued at 1000 s (≥ 4 h old) triggers
one call whose 200-response replaces the cached token and issue time. -/
theorem boot_token_cache_policy_witness :
    (boot slotFreshEx 20000 "uk" (.exc "X") =
      { resp := some respFreshEx, error := none, calls := 0, state := slotFreshEx }) ∧
    ((boot slotStaleEx 20000 "uk" (.http 200 "" respNewEx)).calls = 1 ∧
     (boot slotStaleEx 20000 "uk" (.http 200 "" respNewEx)).resp = some respNewEx ∧
     (boot slotStaleEx 20000 "uk" (.http 200 "" respNewEx)).state.response_list.lookup "uk" =
       some respNewEx ∧
     (boot slotStaleEx 20000 "uk" (.http 200 "" respNewEx)).state.sessionAt.lookup "uk" =
       some 20000) := by
  refine ⟨(boot_token_cache_policy slotFreshEx 20000 "uk").1 respFreshEx 10000
    (by decide) (by decide) (by decide) _, ?_⟩
  have h := (boot_token_cache_policy slotStaleEx 20000 "uk").2
    (Or.inr ⟨1000, by decide, by decide⟩) (.http 200 "" respNewEx)
  exact ⟨h.1, h.2 200 "" respNewEx (by decide) (by decide) rfl⟩

/-- C9: a failed refresh — a transport exception or a non-2xx status — leaves
the slot's token cache (both `response_list` and `sessionAt`) exactly as it
was: nothing is added, removed or overwritten for any region. -/
theorem boot_failure_no_mutation (st : SlotState) (now : Nat) (cc : String) :
    (∀ name, (boot st now cc (.exc name)).state = st) ∧
    (∀ status text json, ¬(200 ≤ status ∧ status ≤ 201) →
      (boot st now cc (.http status text json)).state = st) := by
  constructor
  · intro name
    by_cases hf : isFresh st now cc <;> simp [boot, hf]
  · intro status text json hs
    by_cases hf : isFresh st now cc <;> simp [boot, hf, hs]

/-- Witness for C9: a connection exception and an HTTP 500 both leave the
stale slot's cache untouched. -/
theorem boot_failure_no_mutation_witness :
    (boot slotStaleEx 20000 "uk" (.exc "ConnectionError")).state = slotStaleEx ∧
    ¬(200 ≤ 500 ∧ 500 ≤ 201) ∧
    (boot slotStaleEx 20000 "uk" (.http 500 "err" [])).state = slotStaleEx :=
  ⟨(boot_failure_no_mutation slotStaleEx 20000 "uk").1 "ConnectionError",
   by decide,
   (boot_failure_no_mutation slotStaleEx 20000 "uk").2 500 "err" [] (by decide)⟩

def srcChannelWithNumber (i : Nat) (n : Nat) : SrcChannel :=
  { id := "ch" ++ toString i, name := "n", slug := "s", tmsid := "t",
    summary := "", number := n, images := [] }

/-- C4: within one region's catalog, numbers are assigned in source order with
collisions bumped forward until free, so the assigned numbers are pairwise
distinct (and remain so in the number-sorted output); for source numbers
`[5, 5, 7]` the assigned numbers are `[5, 6, 7]`. -/
theorem channels_number_assignment (cats : String → Option String) (cc : String)
    (channel_list : List SrcChannel) :
    ((buildStations cats cc channel_list).map ChannelRec.number).Nodup ∧
    ((channelsCatalog cats cc channel_list).map ChannelRec.number).Nodup ∧
    ((buildStations cats cc
        [srcChannelWithNumber 0 5, srcChannelWithNumber 1 5, srcChannelWithNumber 2 7]).map
      ChannelRec.number) = [5, 6, 7] := by
  refine ⟨buildStations_numbers_nodup cats cc channel_list, ?_, ?_⟩
  · have hperm : (channelsCatalog cats cc channel_list).Perm
        (buildStations cats cc channel_list) :=
      List.mergeSort_perm _ _
    exact ((hperm.map ChannelRec.number).nodup_iff).mpr
      (buildStations_numbers_nodup cats cc channel_list)
  · simp [buildStations, buildStation, srcChannelWithNumber, bumpFree]

/-! ## `Client.channels_all`: multi-region merge

The merge concatenates the cached per-region catalogs (`self.all_channels`, in
insertion order), deduplicates by channel `id` keeping the first occurrence,
then walks the result once: apply the per-region number offset (ca 6000,
uk 7000, fr 8000, de 9000 — only when the current number is below the offset),
bump past the numbers already in the single `seen` set, and record the final
number.  This section gives the value semantics; the in-place mutation of the
cached records is modelled separately (store-passing) below.
-/

/-- Python's `str.lower()` as used on region codes: character-wise lowercase
(region codes are plain ASCII). -/
def pyLower (s : String) : String := String.mk (s.data.map Char.toLower)

/-- The `match elem.get('country_code', '').lower():` offset table of
`channels_all` (lines 290-306). -/
def regionOffset : String → Option Nat
  | "ca" => some 6000
  | "uk" => some 7000
  | "fr" => some 8000
  | "de" => some 9000
  | _ => none

/-- Offset step for one record: add the region's offset only when the current
number is below it; regions without a configured offset are unchanged. -/
def applyOffset (country_code : String) (n : Nat) : Nat :=
  match regionOffset (pyLower country_code) with
  | some offset => if n < offset then n + offset else n
  | none => n

/-- One step of the id-deduplication comprehension of `channels_all`
(lines 280-285): keep `d` only if its `id` was not seen before. -/
def dedupStep (acc : List ChannelRec × List String) (d : ChannelRec) :
    List ChannelRec × List String :=
  if d.id ∈ acc.2 then acc else (acc.1 ++ [d], acc.2 ++ [d.id])

/-- Deduplicate by channel `id`, keeping the first occurrence. -/
def dedupById (l : List ChannelRec) : List ChannelRec :=
  (l.foldl dedupStep ([], [])).1

/-- One step of the renumbering loop of `channels_all` (lines 288-312):
offset if applicable, bump past the global `seen` set, record the number. -/
def mergeStep (acc : List ChannelRec × List Nat) (elem : ChannelRec) :
    List ChannelRec × List Nat :=
  let n := bumpFree acc.2 (applyOffset elem.country_code elem.number)
  (acc.1 ++ [{ elem with number := n }], acc.2 ++ [n])

def mergeRenumber (l : List ChannelRec) : List ChannelRec :=
  (l.foldl mergeStep ([], [])).1

/-- `Client.channels_all`, as a value over the cached per-region catalogs. -/
def channels_all (all_channels : List (String × List ChannelRec)) : List ChannelRec :=
  mergeRenumber (dedupById ((all_channels.map Prod.snd).flatten))

theorem dedup_snd_eq (l : List ChannelRec) (acc : List ChannelRec × List String)
    (h : acc.2 = acc.1.map ChannelRec.id) :
    (l.foldl dedupStep acc).2 = (l.foldl dedupStep acc).1.map ChannelRec.id := by
  induction l generalizing acc with
  | nil => exact h
  | cons d rest ih =>
      simp only [List.foldl_cons]
      unfold dedupStep
      by_cases hd : d.id ∈ acc.2
      · rw [if_pos hd]
        exact ih _ h
      · rw [if_neg hd]
        exact ih _ (by simp [h])

theorem dedup_ids_nodup (l : List ChannelRec) (acc : List ChannelRec × List String)
    (h : acc.2 = acc.1.map ChannelRec.id) (h2 : acc.2.Nodup) :
    ((l.foldl dedupStep acc).1.map ChannelRec.id).Nodup := by
  induction l generalizing acc with
  | nil => rw [← dedup_snd_eq [] acc h]; exact h2
  | cons d rest ih =>
      simp only [List.foldl_cons]
      unfold dedupStep
      by_cases hd : d.id ∈ acc.2
      · rw [if_pos hd]
        exact ih _ h h2
      · rw [if_neg hd]
        refine ih _ (by simp [h]) ?_
        rw [List.nodup_append]
        exact ⟨h2, by simp, by
          intro a ha
          simp only [List.mem_singleton]
          intro hb
          subst hb
          exact hd ha⟩

theorem merge_snd_eq (l : List ChannelRec) (acc : List ChannelRec × List Nat)
    (h : acc.2 = acc.1.map ChannelRec.number) :
    (l.foldl mergeStep acc).2 = (l.foldl mergeStep acc).1.map ChannelRec.number := by
  induction l generalizing acc with
  | nil => exact h
  | cons d rest ih =>
      simp only [List.foldl_cons]
      exact ih _ (by simp [mergeStep, h])

theorem merge_numbers_nodup (l : List ChannelRec) (acc : List ChannelRec × List Nat)
    (h2 : acc.2.Nodup) :
    (l.foldl mergeStep acc).2.Nodup := by
  induction l generalizing acc with
  | nil => exact h2
  | cons d rest ih =>
      simp only [List.foldl_cons]
      refine ih _ ?_
      simp only [mergeStep]
      rw [List.nodup_append]
      exact ⟨h2, by simp, by
        intro a ha
        simp only [List.mem_singleton]
        intro hb
        subst hb
        exact (bumpFree_not_mem _ _) ha⟩

theorem merge_ids (l : List ChannelRec) (acc : List ChannelRec × List Nat) :
    (l.foldl mergeStep acc).1.map ChannelRec.id =
      acc.1.map ChannelRec.id ++ l.map ChannelRec.id := by
  induction l generalizing acc with
  | nil => simp
  | cons d rest ih =>
      simp only [List.foldl_cons, List.map_cons]
      rw [ih]
      simp [mergeStep]

def mkRec (id country_code : String) (n : Nat) : ChannelRec :=
  { id := id, name := "n", slug := "s", tmsid := "t", summary := "",
    group := none, country_code := country_code, number := n, logo := none }

/-- C5: the multi-region merge keeps one record per channel id, adds a
region's offset only when the number is below it (unconfigured regions
unchanged), and resolves remaining collisions by incrementing against one
used-number set spanning the whole merged result, so merged ids and numbers
are pairwise distinct; merging uk `[50]` with unconfigured local `[50]` gives
`uk:7050, local:50`, and two entries both resolving to 7050 give the
later-processed one 7051. -/
theorem channels_all_merge (all_channels : List (String × List ChannelRec)) :
    ((channels_all all_channels).map ChannelRec.id).Nodup ∧
    ((channels_all all_channels).map ChannelRec.number).Nodup ∧
    (channels_all [("uk", [mkRec "u1" "uk" 50]), ("local", [mkRec "l1" "local" 50])]).map
        (fun c => (c.country_code, c.number)) = [("uk", 7050), ("local", 50)] ∧
    (channels_all [("uk", [mkRec "u1" "uk" 50, mkRec "u2" "uk" 7050])]).map
        ChannelRec.number = [7050, 7051] := by
  have hoff_uk_50 : applyOffset "uk" 50 = 7050 := by decide
  have hoff_uk_7050 : applyOffset "uk" 7050 = 7050 := by decide
  have hoff_local_50 : applyOffset "local" 50 = 50 := by decide
  refine ⟨?_, ?_, ?_, ?_⟩
  · unfold channels_all mergeRenumber
    rw [merge_ids]
    simpa using dedup_ids_nodup _ ([], []) rfl (by simp)
  · unfold channels_all mergeRenumber
    rw [← merge_snd_eq _ ([], []) rfl]
    exact merge_numbers_nodup _ ([], []) (by simp)
  · simp [channels_all, mergeRenumber, dedupById, dedupStep, mergeStep, mkRec,
      hoff_uk_50, hoff_local_50, bumpFree]
  · simp [channels_all, mergeRenumber, dedupById, dedupStep, mergeStep, mkRec,
      hoff_uk_50, hoff_uk_7050, bumpFree]

/-! ## `Client.channels`: token check and fetch error paths

`channels` first calls `resp_data` (returning either a decoded boot response
or an error string), reads `sessionToken` from it, then performs the
channel-list and category-list HTTP calls.  `resp_data` only ever returns
`(resp, None)` or `(None, error)` with a non-empty error, so we model its
result as `Except String Resp`.  The two HTTP calls are modelled by oracle
outcomes carrying their decoded `data` payloads.
-/

structure SrcCategory where
  name : String
  channelIDs : List String
  deriving DecidableEq, Repr

/-- The `categories_list` dictionary built in `channels` (lines 240-245): for
each category, each listed channel id is mapped to the category name (later
categories overwrite earlier ones for a shared channel id). -/
def buildCategoriesList (categories_data : List SrcCategory) : List (String × String) :=
  categories_data.foldl
    (fun m elem => elem.channelIDs.foldl (fun m ch => dictSet m ch elem.name) m) []

inductive HttpOutcome (α : Type) where
  | exc (name : String)
  | http (status : Nat) (text : String) (data : α)
  deriving DecidableEq, Repr

/-- `Client.channels(country_code)` for a non-`'all'` region, as a function of
the `resp_data` result and the two HTTP call outcomes.  Note the second early
return (lines 193-195): when `sessionToken` is missing, the code executes
`return None, error` — and at that point `error` is necessarily `None`. -/
def channelsFetch (country_code : String) (resp_result : Except String Resp)
    (chanCall : HttpOutcome (List SrcChannel)) (catCall : HttpOutcome (List SrcCategory)) :
    Option (List ChannelRec) × Option String :=
  match resp_result with
  | .error e => (none, some e)
  | .ok resp =>
    match resp.lookup "sessionToken" with
    | none => (none, none)
    | some _token =>
      match chanCall with
      | .exc name => (none, some ("Error Exception type: " ++ name))
      | .http status text channel_list =>
        if status ≠ 200 then
          (none, some ("HTTP failure " ++ toString status ++ ": " ++ text))
        else
          match catCall with
          | .exc name => (none, some ("Error Exception type: " ++ name))
          | .http status2 text2 categories_data =>
            if status2 ≠ 200 then
              (none, some ("HTTP failure " ++ toString status2 ++ ": " ++ text2))
            else
              (some (channelsCatalog
                (fun i => (buildCategoriesList categories_data).lookup i)
                country_code channel_list), none)

/-- C8: a catalog fetch whose boot response lacks the `sessionToken` field
returns with *both* the data and the error absent — `channels` executes
`return None, error` at a point where `error` is necessarily `None` — so a
malformed response is not surfaced with a non-empty error value.  (Transport
failures and non-200 statuses do carry non-empty errors; `update_epg`
lines 329-331 repeat the same `return None, error` slip.) -/
theorem channels_malformed_response_silent :
    channelsFetch "uk" (.ok [("activeSession", "x")])
      (.http 200 "" [srcChannelWithNumber 0 5]) (.http 200 "" []) = (none, none) := by
  rfl

/-! ## `Client.read_epg_data`: episode numbering (lines 463-475)

For each timeline occurrence the builder reads
`timeline["episode"].get("series", {}).get("type", "")` and, for `"live"`,
first evaluates `timeline["episode"]["clip"]["originalReleaseDate"] ==
timeline["start"]` (emitting a `<live>` marker element when equal — a direct
dictionary indexing that raises `KeyError` when `clip` is absent), then emits
the `episode-num` pair when `episode.get("season", None)` is truthy, reading
`episode["season"]`, `episode["number"]` and `episode["_id"]` directly; for
`"tv"` it emits the `episode-num` pair unconditionally, reading the same three
fields directly.  Optional fields are `Option`s; a direct indexing of an
absent field is a `KeyError`.  Python's truthiness on the season value makes
`0` falsy.
-/

structure Clip where
  originalReleaseDate : String
  deriving DecidableEq, Repr

structure Episode where
  seriesType : String
  clip : Option Clip
  season : Option Int
  number : Option Int
  eid : Option String
  deriving DecidableEq, Repr

structure NumberingOutput where
  liveMarker : Bool
  numbering : Option (Int × Int × String)
  deriving DecidableEq, Repr

inductive BuilderStep where
  | ok (out : NumberingOutput)
  | keyError (field : String)
  deriving DecidableEq, Repr

/-- The `<live>`-marker-and-episode-numbering step of `read_epg_data` for one
timeline occurrence with start field `start` and episode object `ep`. -/
def liveTvNumbering (start : String) (ep : Episode) : BuilderStep :=
  if ep.seriesType = "live" then
    match ep.clip with
    | none => .keyError "clip"
    | some clip =>
      let marker := clip.originalReleaseDate = start
      match ep.season with
      | some s =>
        if s ≠ 0 then
          match ep.number, ep.eid with
          | some n, some i => .ok { liveMarker := marker, numbering := some (s, n, i) }
          | none, _ => .keyError "number"
          | some _, none => .keyError "_id"
        else .ok { liveMarker := marker, numbering := none }
      | none => .ok { liveMarker := marker, numbering := none }
  else if ep.seriesType = "tv" then
    match ep.season, ep.number, ep.eid with
    | some s, some n, some i => .ok { liveMarker := false, numbering := some (s, n, i) }
    | none, _, _ => .keyError "season"
    | some _, none, _ => .keyError "number"
    | some _, some _, none => .keyError "_id"
  else .ok { liveMarker := false, numbering := none }

/-- A `"live"` episode whose clip release date differs from the occurrence
start, with a season present. -/
def epLiveMismatch : Episode :=
  { seriesType := "live", clip := some { originalReleaseDate := "A" },
    season := some 2, number := some 5, eid := some "e1" }

/-- A `"tv"` episode lacking a season. -/
def epTvNoSeason : Episode :=
  { seriesType := "tv", clip := some { originalReleaseDate := "A" },
    season := none, number := some 5, eid := some "e1" }

/-- C7 counterexample: (i) a `"live"` occurrence whose original-release date
differs from the occurrence start but which carries a season still gets
episode numbering — the date-equality test gates only the `<live>` marker —
and (ii) a `"tv"` occurrence lacking a season makes the builder raise a
`KeyError` instead of emitting no numbering and not failing. -/
theorem read_epg_numbering_cex :
    liveTvNumbering "B" epLiveMismatch =
      .ok { liveMarker := false, numbering := some (2, 5, "e1") } ∧
    liveTvNumbering "B" epTvNoSeason = .keyError "season" := by
  exact ⟨rfl, rfl⟩

/-- C7 amended: numbering is emitted only for series types `"live"` and
`"tv"`.  For `"live"` (with `clip` present — its absence raises), numbering is
emitted exactly when a truthy season plus `number` and `_id` are present, and
neither the emitted numbering nor a numbering failure depends on the
original-release-date/start comparison (which only selects the `<live>`
marker).  For `"tv"`, numbering is attempted unconditionally: it is emitted
exactly when `season`, `number` and `_id` are all present, and the builder
raises a `KeyError` otherwise.  For every other series type the builder emits
no numbering and does not fail. -/
theorem read_epg_numbering_characterization (start : String) (ep : Episode) :
    (∀ s n i out, liveTvNumbering start ep = .ok out →
      out.numbering = some (s, n, i) →
      ep.seriesType = "live" ∨ ep.seriesType = "tv") ∧
    (ep.seriesType = "live" → ∀ clip, ep.clip = some clip →
      (((∃ out, liveTvNumbering start ep = .ok out ∧ out.numbering ≠ none) ↔
        ((∃ s, ep.season = some s ∧ s ≠ 0) ∧ ep.number ≠ none ∧ ep.eid ≠ none)) ∧
       (∀ start', (match liveTvNumbering start ep, liveTvNumbering start' ep with
         | .ok out, .ok out' => out.numbering = out'.numbering
         | .keyError f, .keyError f' => f = f'
         | _, _ => False)))) ∧
    (ep.seriesType = "tv" →
      (((∃ out, liveTvNumbering start ep = .ok out ∧ out.numbering ≠ none) ↔
        (ep.season ≠ none ∧ ep.number ≠ none ∧ ep.eid ≠ none)) ∧
       ((∃ f, liveTvNumbering start ep = .keyError f) ↔
        (ep.season = none ∨ ep.number = none ∨ ep.eid = none)))) ∧
    (ep.seriesType ≠ "live" → ep.seriesType ≠ "tv" →
      liveTvNumbering start ep = .ok { liveMarker := false, numbering := none }) := by
  obtain ⟨st, clip, season, number, eid⟩ := ep
  refine ⟨?_, ?_, ?_, ?_⟩
  · intro s n i out hok hnum
    by_cases hl : st = "live"
    · exact Or.inl hl
    by_cases ht : st = "tv"
    · exact Or.inr ht
    exfalso
    simp only [liveTvNumbering] at hok
    rw [if_neg hl, if_neg ht] at hok
    simp only [BuilderStep.ok.injEq] at hok
    subst hok
    simp at hnum
  · intro hl c hclip
    simp only at hl hclip
    subst hl
    subst hclip
    constructor
    · rcases season with _ | s
      · simp [liveTvNumbering]
      · by_cases hz : s = 0
        · subst hz
          simp [liveTvNumbering]
        · rcases number with _ | n <;> rcases eid with _ | i <;>
            simp [liveTvNumbering, hz]
    · intro start'
      rcases season with _ | s
      · simp [liveTvNumbering]
      · by_cases hz : s = 0
        · subst hz
          simp [liveTvNumbering]
        · rcases number with _ | n <;> rcases eid with _ | i <;>
            simp [liveTvNumbering, hz]
  · intro ht
    simp only at ht
    subst ht
    rcases season with _ | s <;> rcases number with _ | n <;> rcases eid with _ | i <;>
      simp [liveTvNumbering]
  · intro hl ht
    simp only at hl ht
    simp [liveTvNumbering, hl, ht]

/-- Witness for the amended C7 characterization at the two concrete episodes. -/
theorem read_epg_numbering_characterization_witness :
    ((∃ out, liveTvNumbering "B" epLiveMismatch = .ok out ∧ out.numbering ≠ none) ↔
      ((∃ s, epLiveMismatch.season = some s ∧ s ≠ 0) ∧ epLiveMismatch.number ≠ none ∧
        epLiveMismatch.eid ≠ none)) ∧
    ((∃ f, liveTvNumbering "B" epTvNoSeason = .keyError f) ↔
      (epTvNoSeason.season = none ∨ epTvNoSeason.number = none ∨ epTvNoSeason.eid = none)) :=
  ⟨((read_epg_numbering_characterization "B" epLiveMismatch).2.1 rfl
      { originalReleaseDate := "A" } rfl).1,
   ((read_epg_numbering_characterization "B" epTvNoSeason).2.2.1 rfl).2⟩

/-! ## `Client.get_all_epg_data`: multi-region EPG dedup (lines 517-540)

Each accumulated page is the `data` list of one timelines response; an entry
carries its `channelId` plus an opaque payload.  The code walks the pages of
every region in order with a single `channelIds_seen` counter dictionary; for
each entry of a page (iterating over the copy `data_list[:]`), a first-seen
channel id gets count 1, a seen one below `range_count` is counted up, and one
at `range_count` is removed from the live list via `data_list.remove(entry)`
(Python: removes the first list element *equal* to the entry).
-/

structure EpgEntry where
  channelId : String
  payload : String
  deriving DecidableEq, Repr

/-- Python `list.remove(x)`: drop the first element equal to `x`. -/
def removeFirst (l : List EpgEntry) (e : EpgEntry) : List EpgEntry :=
  match l with
  | [] => []
  | x :: rest => if x = e then rest else x :: removeFirst rest e

/-- The inner `for entry in data_list[:]` loop: `snapshot` is the copy being
iterated, `cur` the live list being mutated, `seen` the shared counter dict. -/
def processEntries (rc : Nat) (snapshot : List EpgEntry) (cur : List EpgEntry)
    (seen : List (String × Nat)) : List EpgEntry × List (String × Nat) :=
  match snapshot with
  | [] => (cur, seen)
  | e :: rest =>
    match seen.lookup e.channelId with
    | some c =>
        if c < rc then processEntries rc rest cur (dictSet seen e.channelId (c + 1))
        else processEntries rc rest (removeFirst cur e) seen
    | none => processEntries rc rest cur (dictSet seen e.channelId 1)

/-- The page loop of `get_all_epg_data`: pages (all regions concatenated, in
processing order) against the single shared counter dict. -/
def processPages (rc : Nat) (pages : List (List EpgEntry)) (seen : List (String × Nat)) :
    List (List EpgEntry) × List (String × Nat) :=
  match pages with
  | [] => ([], seen)
  | p :: rest =>
    let pr := processEntries rc p p seen
    let out := processPages rc rest pr.2
    (pr.1 :: out.1, out.2)

/-- `Client.get_all_epg_data` on the error-free path: the retained builder
input, with `range_count = 3` in the source kept as the parameter `rc`. -/
def get_all_epg_data (rc : Nat) (pages : List (List EpgEntry)) : List (List EpgEntry) :=
  (processPages rc pages []).1

/-- Modelled from the claim's words, for comparison: keep, for every channel
id, exactly its first `rc` occurrences across the accumulated pages (page
order, left to right within a page), dropping all later ones.  `occ` counts
the occurrences already passed. -/
def bumpOcc (occ : String → Nat) (c : String) : String → Nat :=
  fun x => if x = c then occ c + 1 else occ x

def retainPage (rc : Nat) : List EpgEntry → (String → Nat) → List EpgEntry × (String → Nat)
  | [], occ => ([], occ)
  | e :: rest, occ =>
    let r := retainPage rc rest (bumpOcc occ e.channelId)
    if occ e.channelId < rc then (e :: r.1, r.2) else r

def retainSpec (rc : Nat) : List (List EpgEntry) → (String → Nat) → List (List EpgEntry) × (String → Nat)
  | [], occ => ([], occ)
  | p :: rest, occ =>
    let pr := retainPage rc p occ
    let out := retainSpec rc rest pr.2
    (pr.1 :: out.1, out.2)

def retainFirstOccurrences (rc : Nat) (pages : List (List EpgEntry)) : List (List EpgEntry) :=
  (retainSpec rc pages (fun _ => 0)).1

theorem lookup_dictSet_ne {α : Type} (m : List (String × α)) (k k' : String) (v : α)
    (h : k' ≠ k) : (dictSet m k v).lookup k' = m.lookup k' := by
  have hne : (k' == k) = false := by simp [h]
  induction m with
  | nil => simp [dictSet, List.lookup, hne]
  | cons p rest ih =>
      obtain ⟨a, b⟩ := p
      by_cases hak : a = k
      · subst hak
        simp [dictSet, List.lookup, hne]
      · simp only [dictSet, if_neg hak]
        by_cases h2 : k' = a
        · subst h2
          simp [List.lookup]
        · have h2' : (k' == a) = false := by simp [h2]
          simp [List.lookup, h2', ih]

theorem removeFirst_append_of_not_mem (kept : List EpgEntry) (e : EpgEntry)
    (rest : List EpgEntry) (h : e ∉ kept) :
    removeFirst (kept ++ e :: rest) e = kept ++ rest := by
  induction kept with
  | nil => simp [removeFirst]
  | cons x xs ih =>
      have hxe : ¬(x = e) := fun hx => h (hx ▸ List.mem_cons_self x xs)
      simp only [List.cons_append, removeFirst, if_neg hxe]
      exact congrArg (fun l => x :: l) (ih (fun hm => h (List.mem_cons_of_mem x hm)))

/-- Abstraction relation between the code's `channelIds_seen` dictionary and
the specification's occurrence counter: for `rc ≥ 1`, a channel with `k > 0`
occurrences so far is recorded at `min k rc` (first occurrence sets 1; kept
occurrences count up to `rc`; dropped ones leave the count at `rc`). -/
def SeenInv (rc : Nat) (seen : List (String × Nat)) (occ : String → Nat) : Prop :=
  ∀ c, seen.lookup c = if occ c = 0 then none else some (min (occ c) rc)

theorem seen_lookup_none {rc : Nat} {seen : List (String × Nat)} {occ : String → Nat}
    {c : String} (h : SeenInv rc seen occ) (hl : seen.lookup c = none) : occ c = 0 := by
  have hc := h c
  rw [hl] at hc
  by_cases h0 : occ c = 0
  · exact h0
  · rw [if_neg h0] at hc
    cases hc

theorem seen_lookup_some {rc : Nat} {seen : List (String × Nat)} {occ : String → Nat}
    {c : String} {m : Nat} (h : SeenInv rc seen occ) (hl : seen.lookup c = some m) :
    occ c ≠ 0 ∧ m = min (occ c) rc := by
  have hc := h c
  rw [hl] at hc
  by_cases h0 : occ c = 0
  · rw [if_pos h0] at hc
    cases hc
  · rw [if_neg h0] at hc
    injection hc with h2
    exact ⟨h0, h2⟩

theorem seenInv_new {rc : Nat} {seen : List (String × Nat)} {occ : String → Nat}
    {c : String} (hrc : 1 ≤ rc) (h : SeenInv rc seen occ) (hl : seen.lookup c = none) :
    SeenInv rc (dictSet seen c 1) (bumpOcc occ c) := by
  have h0 : occ c = 0 := seen_lookup_none h hl
  intro x
  by_cases hx : x = c
  · subst hx
    rw [lookup_dictSet]
    simp [bumpOcc, h0]
    omega
  · rw [lookup_dictSet_ne _ _ _ _ hx]
    simpa [bumpOcc, hx] using h x

theorem seenInv_count {rc : Nat} {seen : List (String × Nat)} {occ : String → Nat}
    {c : String} {m : Nat} (h : SeenInv rc seen occ) (hl : seen.lookup c = some m)
    (hm : m < rc) :
    SeenInv rc (dictSet seen c (m + 1)) (bumpOcc occ c) := by
  obtain ⟨h0, hmin⟩ := seen_lookup_some h hl
  have hocc : occ c < rc := by omega
  have hmeq : m = occ c := by omega
  intro x
  by_cases hx : x = c
  · subst hx
    rw [lookup_dictSet]
    simp [bumpOcc, hmeq]
    omega
  · rw [lookup_dictSet_ne _ _ _ _ hx]
    simpa [bumpOcc, hx] using h x

theorem seenInv_full {rc : Nat} {seen : List (String × Nat)} {occ : String → Nat}
    {c : String} {m : Nat} (h : SeenInv rc seen occ) (hl : seen.lookup c = some m)
    (hm : ¬ m < rc) :
    SeenInv rc seen (bumpOcc occ c) := by
  obtain ⟨h0, hmin⟩ := seen_lookup_some h hl
  have hocc : rc ≤ occ c := by omega
  intro x
  by_cases hx : x = c
  · subst hx
    rw [hl]
    simp [bumpOcc]
    omega
  · simpa [bumpOcc, hx] using h x

theorem processEntries_eq_retainPage (rc : Nat) (hrc : 1 ≤ rc) :
    ∀ (snapshot kept : List EpgEntry) (seen : List (String × Nat)) (occ : String → Nat),
      SeenInv rc seen occ →
      ((kept ++ snapshot).map EpgEntry.channelId).Nodup →
      (processEntries rc snapshot (kept ++ snapshot) seen).1 =
          kept ++ (retainPage rc snapshot occ).1 ∧
      SeenInv rc (processEntries rc snapshot (kept ++ snapshot) seen).2
        (retainPage rc snapshot occ).2 := by
  intro snapshot
  induction snapshot with
  | nil =>
      intro kept seen occ hinv _
      exact ⟨by simp [processEntries, retainPage],
             by simpa [processEntries, retainPage] using hinv⟩
  | cons e rest ih =>
      intro kept seen occ hinv hnodup
      have hnodup' : (((kept ++ [e]) ++ rest).map EpgEntry.channelId).Nodup := by
        simpa [List.append_assoc] using hnodup
      cases hle : List.lookup e.channelId seen with
      | none =>
          have h0 : occ e.channelId = 0 := seen_lookup_none hinv hle
          have hkept : occ e.channelId < rc := by omega
          have hinv' := seenInv_new hrc hinv hle
          obtain ⟨h1, h2⟩ := ih (kept ++ [e]) (dictSet seen e.channelId 1)
            (bumpOcc occ e.channelId) hinv' hnodup'
          have hred : processEntries rc (e :: rest) (kept ++ e :: rest) seen =
              processEntries rc rest ((kept ++ [e]) ++ rest)
                (dictSet seen e.channelId 1) := by
            simp [processEntries, hle]
          have hsp1 : (retainPage rc (e :: rest) occ).1 =
              e :: (retainPage rc rest (bumpOcc occ e.channelId)).1 := by
            simp [retainPage, hkept]
          have hsp2 : (retainPage rc (e :: rest) occ).2 =
              (retainPage rc rest (bumpOcc occ e.channelId)).2 := by
            simp [retainPage, hkept]
          rw [hred, hsp1, hsp2]
          exact ⟨by rw [h1]; simp, h2⟩
      | some m =>
          obtain ⟨h0, hmin⟩ := seen_lookup_some hinv hle
          by_cases hm : m < rc
          · have hkept : occ e.channelId < rc := by omega
            have hinv' := seenInv_count hinv hle hm
            obtain ⟨h1, h2⟩ := ih (kept ++ [e]) (dictSet seen e.channelId (m + 1))
              (bumpOcc occ e.channelId) hinv' hnodup'
            have hred : processEntries rc (e :: rest) (kept ++ e :: rest) seen =
                processEntries rc rest ((kept ++ [e]) ++ rest)
                  (dictSet seen e.channelId (m + 1)) := by
              simp [processEntries, hle, hm]
            have hsp1 : (retainPage rc (e :: rest) occ).1 =
                e :: (retainPage rc rest (bumpOcc occ e.channelId)).1 := by
              simp [retainPage, hkept]
            have hsp2 : (retainPage rc (e :: rest) occ).2 =
                (retainPage rc rest (bumpOcc occ e.channelId)).2 := by
              simp [retainPage, hkept]
            rw [hred, hsp1, hsp2]
            exact ⟨by rw [h1]; simp, h2⟩
          · have hdrop : ¬ occ e.channelId < rc := by omega
            have hinv' := seenInv_full hinv hle hm
            have hnm : e ∉ kept := by
              intro hmem
              rw [List.map_append] at hnodup
              rcases List.nodup_append.mp hnodup with ⟨_, _, hdisj⟩
              exact hdisj (List.mem_map_of_mem _ hmem) (by simp)
            have hsub : (kept ++ rest).Sublist (kept ++ e :: rest) :=
              List.Sublist.append_left (List.sublist_cons_self e rest) kept
            have hnodup'' : ((kept ++ rest).map EpgEntry.channelId).Nodup :=
              List.Nodup.sublist (List.Sublist.map _ hsub) hnodup
            obtain ⟨h1, h2⟩ := ih kept seen (bumpOcc occ e.channelId) hinv' hnodup''
            have hred : processEntries rc (e :: rest) (kept ++ e :: rest) seen =
                processEntries rc rest (kept ++ rest) seen := by
              simp [processEntries, hle, hm,
                removeFirst_append_of_not_mem kept e rest hnm]
            have hsp1 : (retainPage rc (e :: rest) occ).1 =
                (retainPage rc rest (bumpOcc occ e.channelId)).1 := by
              simp [retainPage, hdrop]
            have hsp2 : (retainPage rc (e :: rest) occ).2 =
                (retainPage rc rest (bumpOcc occ e.channelId)).2 := by
              simp [retainPage, hdrop]
            rw [hred, hsp1, hsp2]
            exact ⟨h1, h2⟩

theorem processPages_eq_retainSpec (rc : Nat) (hrc : 1 ≤ rc) :
    ∀ (pages : List (List EpgEntry)) (seen : List (String × Nat)) (occ : String → Nat),
      SeenInv rc seen occ →
      (∀ p ∈ pages, (p.map EpgEntry.channelId).Nodup) →
      (processPages rc pages seen).1 = (retainSpec rc pages occ).1 ∧
      SeenInv rc (processPages rc pages seen).2 (retainSpec rc pages occ).2 := by
  intro pages
  induction pages with
  | nil =>
      intro seen occ hinv _
      exact ⟨rfl, hinv⟩
  | cons p rest ih =>
      intro seen occ hinv hnodup
      have hp : ((([] : List EpgEntry) ++ p).map EpgEntry.channelId).Nodup := by
        simpa using hnodup p (List.mem_cons_self p rest)
      obtain ⟨h1, h2⟩ := processEntries_eq_retainPage rc hrc p [] seen occ hinv hp
      simp only [List.nil_append] at h1 h2
      obtain ⟨h3, h4⟩ := ih (processEntries rc p p seen).2 (retainPage rc p occ).2 h2
        (fun q hq => hnodup q (List.mem_cons_of_mem p hq))
      constructor
      · simp only [processPages, retainSpec]
        rw [h1, h3]
      · simp only [processPages, retainSpec]
        exact h4

def epgE (p : String) : EpgEntry := { channelId := "c1", payload := p }

def fivePagesOneChannel : List (List EpgEntry) :=
  [[epgE "1"], [epgE "2"], [epgE "3"], [epgE "4"], [epgE "5"]]

/-- C6: in the multi-region EPG run with window count `rc` (`range_count`, 3
in the source), provided no single page lists one channel id twice, the
retained builder input keeps, for every channel id, exactly its first
`min(k, rc)` occurrences over the `k` accumulated pages and drops every later
occurrence; a channel id appearing in 5 pages with `rc = 3` keeps exactly the
first 3. -/
theorem get_all_epg_data_window_dedup (rc : Nat) (pages : List (List EpgEntry))
    (hrc : 1 ≤ rc)
    (hpages : ∀ p ∈ pages, (p.map EpgEntry.channelId).Nodup) :
    get_all_epg_data rc pages = retainFirstOccurrences rc pages ∧
    get_all_epg_data 3 fivePagesOneChannel =
      [[epgE "1"], [epgE "2"], [epgE "3"], [], []] := by
  constructor
  · have hinv : SeenInv rc [] (fun _ => 0) := by
      intro c
      simp [List.lookup]
    exact (processPages_eq_retainSpec rc hrc pages [] (fun _ => 0) hinv hpages).1
  · decide

/-- Witness for C6 at `rc = 3` and the five-page single-channel input. -/
theorem get_all_epg_data_window_dedup_witness :
    (1 ≤ 3 ∧ ∀ p ∈ fivePagesOneChannel, (p.map EpgEntry.channelId).Nodup) ∧
    (get_all_epg_data 3 fivePagesOneChannel = retainFirstOccurrences 3 fivePagesOneChannel ∧
     get_all_epg_data 3 fivePagesOneChannel =
       [[epgE "1"], [epgE "2"], [epgE "3"], [], []]) :=
  ⟨⟨by decide, by decide⟩,
   get_all_epg_data_window_dedup 3 fivePagesOneChannel (by decide) (by decide)⟩

/-! ## `Client.channels_all` frame effect: in-place renumbering

The per-region catalogs cached in `self.all_channels` hold the very dict
objects that `channels_all` renumbers (`elem['number'] = number`,
lines 311-312).  To capture object identity we add a store of records; the
cached catalogs hold references (store indices), and the merge walks the
deduplicated reference list, rewriting each referenced record's `number`
in place.
-/

instance : Inhabited ChannelRec :=
  ⟨{ id := "", name := "", slug := "", tmsid := "", summary := "",
     group := none, country_code := "", number := 0, logo := none }⟩

structure Store where
  recs : List ChannelRec
  deriving DecidableEq, Repr

def Store.get (s : Store) (r : Nat) : ChannelRec := (s.recs[r]?).getD default

def Store.set (s : Store) (r : Nat) (rec : ChannelRec) : Store := ⟨s.recs.set r rec⟩

theorem Store.length_set (s : Store) (r : Nat) (rec : ChannelRec) :
    (s.set r rec).recs.length = s.recs.length := by
  simp [Store.set]

theorem Store.get_set_self (s : Store) (r : Nat) (rec : ChannelRec)
    (h : r < s.recs.length) : (s.set r rec).get r = rec := by
  simp [Store.get, Store.set, List.getElem?_set_eq_of_lt rec h]

theorem Store.get_set_ne (s : Store) (r r' : Nat) (rec : ChannelRec)
    (h : r' ≠ r) : (s.set r rec).get r' = s.get r' := by
  simp [Store.get, Store.set, List.getElem?_set_ne (fun he => h he.symm)]

/-- The dedup comprehension of `channels_all`, over references: keep a
reference only if the id of the record it points to was not seen before. -/
def dedupRefStep (s : Store) (acc : List Nat × List String) (r : Nat) :
    List Nat × List String :=
  if (s.get r).id ∈ acc.2 then acc else (acc.1 ++ [r], acc.2 ++ [(s.get r).id])

def dedupByIdRefs (s : Store) (refs : List Nat) : List Nat :=
  (refs.foldl (dedupRefStep s) ([], [])).1

/-- One step of the renumbering loop, rewriting (`Store.set`) the record the
current reference points to. -/
def mergeStepStore (acc : Store × List Nat) (r : Nat) : Store × List Nat :=
  let elem := acc.1.get r
  let n := bumpFree acc.2 (applyOffset elem.country_code elem.number)
  (acc.1.set r { elem with number := n }, acc.2 ++ [n])

/-- `Client.channels_all` with the cached catalogs as reference lists into the
store: returns the mutated store and the merged (deduplicated) references. -/
def channels_all_store (s : Store) (all_channels : List (String × List Nat)) :
    Store × List Nat :=
  let refs := dedupByIdRefs s ((all_channels.map Prod.snd).flatten)
  ((refs.foldl mergeStepStore (s, [])).1, refs)

/-- Equality on every `ChannelRec` field except `number`. -/
def sameExceptNumber (a b : ChannelRec) : Prop :=
  a.id = b.id ∧ a.name = b.name ∧ a.slug = b.slug ∧ a.tmsid = b.tmsid ∧
  a.summary = b.summary ∧ a.group = b.group ∧ a.country_code = b.country_code ∧
  a.logo = b.logo

theorem dedup_refs_commutes (s : Store) :
    ∀ (refs : List Nat) (accr : List Nat × List String) (accv : List ChannelRec × List String),
      accv.1 = accr.1.map s.get → accv.2 = accr.2 →
      (refs.foldl (dedupRefStep s) accr).1.map s.get =
        ((refs.map s.get).foldl dedupStep accv).1 ∧
      (refs.foldl (dedupRefStep s) accr).2 = ((refs.map s.get).foldl dedupStep accv).2 := by
  intro refs
  induction refs with
  | nil =>
      intro accr accv h1 h2
      exact ⟨h1.symm, h2.symm⟩
  | cons r rest ih =>
      intro accr accv h1 h2
      simp only [List.map_cons, List.foldl_cons]
      by_cases hmem : (s.get r).id ∈ accr.2
      · have hstep1 : dedupRefStep s accr r = accr := by
          simp [dedupRefStep, hmem]
        have hstep2 : dedupStep accv (s.get r) = accv := by
          simp [dedupStep, h2, hmem]
        rw [hstep1, hstep2]
        exact ih accr accv h1 h2
      · have hstep1 : dedupRefStep s accr r = (accr.1 ++ [r], accr.2 ++ [(s.get r).id]) := by
          simp [dedupRefStep, hmem]
        have hstep2 : dedupStep accv (s.get r) =
            (accv.1 ++ [s.get r], accv.2 ++ [(s.get r).id]) := by
          simp [dedupStep, h2, hmem]
        rw [hstep1, hstep2]
        exact ih _ _ (by simp [h1]) (by simp [h2])

theorem dedup_refs_sublist (s : Store) :
    ∀ (refs : List Nat) (acc : List Nat × List String),
      ∃ t, (refs.foldl (dedupRefStep s) acc).1 = acc.1 ++ t ∧ t.Sublist refs := by
  intro refs
  induction refs with
  | nil =>
      intro acc
      exact ⟨[], by simp, List.Sublist.refl []⟩
  | cons r rest ih =>
      intro acc
      simp only [List.foldl_cons]
      by_cases hmem : (s.get r).id ∈ acc.2
      · have hstep : dedupRefStep s acc r = acc := by simp [dedupRefStep, hmem]
        rw [hstep]
        obtain ⟨t, h1, h2⟩ := ih acc
        exact ⟨t, h1, List.Sublist.cons r h2⟩
      · have hstep : dedupRefStep s acc r = (acc.1 ++ [r], acc.2 ++ [(s.get r).id]) := by
          simp [dedupRefStep, hmem]
        rw [hstep]
        obtain ⟨t, h1, h2⟩ := ih (acc.1 ++ [r], acc.2 ++ [(s.get r).id])
        exact ⟨r :: t, by rw [h1]; simp, List.Sublist.cons₂ r h2⟩

theorem merge_store_pair :
    ∀ (todo : List Nat) (sc : Store) (seen : List Nat) (pref : List ChannelRec),
      todo.Nodup →
      (∀ r ∈ todo, r < sc.recs.length) →
      ((todo.map sc.get).foldl mergeStep (pref, seen)).1 =
          pref ++ todo.map ((todo.foldl mergeStepStore (sc, seen)).1.get) ∧
      (∀ r, r ∉ todo → (todo.foldl mergeStepStore (sc, seen)).1.get r = sc.get r) ∧
      (todo.foldl mergeStepStore (sc, seen)).1.recs.length = sc.recs.length := by
  intro todo
  induction todo with
  | nil =>
      intro sc seen pref _ _
      exact ⟨by simp, fun r _ => rfl, rfl⟩
  | cons r rest ih =>
      intro sc seen pref hnodup hvalid
      obtain ⟨hrnotin, hrest_nodup⟩ := List.nodup_cons.mp hnodup
      have hr : r < sc.recs.length := hvalid r (List.mem_cons_self r rest)
      have hstep_heap : (r :: rest).foldl mergeStepStore (sc, seen) =
          rest.foldl mergeStepStore (mergeStepStore (sc, seen) r) := by
        simp
      have hmerge_def : mergeStepStore (sc, seen) r =
          (sc.set r { sc.get r with
              number := bumpFree seen (applyOffset (sc.get r).country_code (sc.get r).number) },
           seen ++ [bumpFree seen (applyOffset (sc.get r).country_code (sc.get r).number)]) := by
        simp [mergeStepStore]
      set n := bumpFree seen (applyOffset (sc.get r).country_code (sc.get r).number) with hn
      set elemNew : ChannelRec := { sc.get r with number := n } with helem
      set sc' := sc.set r elemNew with hsc'
      have hvalid' : ∀ x ∈ rest, x < sc'.recs.length := by
        rw [hsc', Store.length_set]
        exact fun x hx => hvalid x (List.mem_cons_of_mem r hx)
      have hmapeq : rest.map sc.get = rest.map sc'.get := by
        refine List.map_congr_left fun x hx => ?_
        have hxr : x ≠ r := fun he => hrnotin (he ▸ hx)
        rw [hsc', Store.get_set_ne sc r x elemNew hxr]
      obtain ⟨ih1, ih2, ih3⟩ := ih sc' (seen ++ [n]) (pref ++ [elemNew]) hrest_nodup hvalid'
      have hstep_val : ((r :: rest).map sc.get).foldl mergeStep (pref, seen) =
          (rest.map sc.get).foldl mergeStep (pref ++ [elemNew], seen ++ [n]) := by
        simp [mergeStep, hn, helem]
      have hFr : (rest.foldl mergeStepStore (sc', seen ++ [n])).1.get r = elemNew := by
        rw [ih2 r hrnotin, hsc', Store.get_set_self sc r elemNew hr]
      refine ⟨?_, ?_, ?_⟩
      · rw [hstep_val, hmapeq, ih1, hstep_heap, hmerge_def]
        rw [List.map_cons, hFr]
        simp
      · intro x hx
        have hxrest : x ∉ rest := fun hm => hx (List.mem_cons_of_mem r hm)
        have hxr : x ≠ r := fun he => hx (he ▸ List.mem_cons_self r rest)
        rw [hstep_heap, hmerge_def, ih2 x hxrest, hsc',
          Store.get_set_ne sc r x elemNew hxr]
      · rw [hstep_heap, hmerge_def, ih3, hsc', Store.length_set]

theorem merge_sameExceptNumber :
    ∀ (l : List ChannelRec) (pref : List ChannelRec) (seen : List Nat),
      ∃ news, (l.foldl mergeStep (pref, seen)).1 = pref ++ news ∧
        List.Forall₂ sameExceptNumber news l := by
  intro l
  induction l with
  | nil =>
      intro pref seen
      exact ⟨[], by simp, List.Forall₂.nil⟩
  | cons e rest ih =>
      intro pref seen
      simp only [List.foldl_cons]
      have hstep : mergeStep (pref, seen) e =
          (pref ++ [{ e with
              number := bumpFree seen (applyOffset e.country_code e.number) }],
           seen ++ [bumpFree seen (applyOffset e.country_code e.number)]) := by
        simp [mergeStep]
      rw [hstep]
      obtain ⟨news, h1, h2⟩ := ih
        (pref ++ [{ e with number := bumpFree seen (applyOffset e.country_code e.number) }])
        (seen ++ [bumpFree seen (applyOffset e.country_code e.number)])
      refine ⟨{ e with number := bumpFree seen (applyOffset e.country_code e.number) } :: news,
        ?_, ?_⟩
      · rw [h1]
        simp
      · exact List.Forall₂.cons (by simp [sameExceptNumber]) h2

/-- C10: `channels_all` renumbers in place.  With the cached per-region
catalogs as reference lists into the record store (each cached record object
stored once, references valid), the merge (i) leaves every record object that
is not part of the deduplicated merged output untouched, (ii) rewrites only
the `number` field — every record in the store keeps all its other fields —
and (iii) the records read back through the mutated store at the merged
references are exactly the value-level `channels_all` result of the observed
catalogs, so the per-region caches, which alias the same objects, observe the
merged (offset and collision-bumped) numbers. -/
theorem channels_all_inplace (s : Store) (regions : List (String × List Nat))
    (hnodup : ((regions.map Prod.snd).flatten).Nodup)
    (hvalid : ∀ r ∈ (regions.map Prod.snd).flatten, r < s.recs.length) :
    (channels_all_store s regions).2.map (channels_all_store s regions).1.get =
        channels_all (regions.map (fun rl => (rl.1, rl.2.map s.get))) ∧
    (∀ r, r ∉ (channels_all_store s regions).2 →
        (channels_all_store s regions).1.get r = s.get r) ∧
    (∀ r, sameExceptNumber ((channels_all_store s regions).1.get r) (s.get r)) := by
  have hchst2 : (channels_all_store s regions).2 =
      dedupByIdRefs s ((regions.map Prod.snd).flatten) := by
    simp [channels_all_store]
  have hchst1 : (channels_all_store s regions).1 =
      ((dedupByIdRefs s ((regions.map Prod.snd).flatten)).foldl
        mergeStepStore (s, [])).1 := by
    simp [channels_all_store]
  obtain ⟨t, ht1, ht2⟩ := dedup_refs_sublist s ((regions.map Prod.snd).flatten) ([], [])
  have hdsub : (dedupByIdRefs s ((regions.map Prod.snd).flatten)).Sublist
      ((regions.map Prod.snd).flatten) := by
    unfold dedupByIdRefs
    rw [ht1]
    simpa using ht2
  have hdnodup : (dedupByIdRefs s ((regions.map Prod.snd).flatten)).Nodup :=
    List.Nodup.sublist hdsub hnodup
  have hdvalid : ∀ r ∈ dedupByIdRefs s ((regions.map Prod.snd).flatten),
      r < s.recs.length := fun r hr => hvalid r (hdsub.subset hr)
  obtain ⟨hm1, hm2, _⟩ :=
    merge_store_pair (dedupByIdRefs s ((regions.map Prod.snd).flatten)) s [] []
      hdnodup hdvalid
  have hflat : ∀ (L : List (List Nat)),
      (L.map (fun l => l.map s.get)).flatten = L.flatten.map s.get := by
    intro L
    induction L with
    | nil => rfl
    | cons a u ihu =>
        simp only [List.map_cons, List.flatten_cons, List.map_append, ihu]
  have hcomp : (regions.map (fun rl => (rl.1, rl.2.map s.get))).map Prod.snd =
      (regions.map Prod.snd).map (fun l => l.map s.get) := by
    simp only [List.map_map]
    rfl
  have hval : channels_all (regions.map (fun rl => (rl.1, rl.2.map s.get))) =
      mergeRenumber (dedupById (((regions.map Prod.snd).flatten).map s.get)) := by
    unfold channels_all
    rw [hcomp, hflat]
  have hdedup : dedupById (((regions.map Prod.snd).flatten).map s.get) =
      (dedupByIdRefs s ((regions.map Prod.snd).flatten)).map s.get :=
    ((dedup_refs_commutes s ((regions.map Prod.snd).flatten) ([], []) ([], [])
      rfl rfl).1).symm
  have hc1 : (channels_all_store s regions).2.map (channels_all_store s regions).1.get =
      channels_all (regions.map (fun rl => (rl.1, rl.2.map s.get))) := by
    rw [hchst2, hchst1, hval, hdedup]
    unfold mergeRenumber
    rw [hm1]
    simp
  refine ⟨hc1, ?_, ?_⟩
  · intro r hr
    rw [hchst2] at hr
    rw [hchst1]
    exact hm2 r hr
  · obtain ⟨news, hn1, hn2⟩ :=
      merge_sameExceptNumber
        ((dedupByIdRefs s ((regions.map Prod.snd).flatten)).map s.get) [] []
    have hnews : news =
        (dedupByIdRefs s ((regions.map Prod.snd).flatten)).map
          ((dedupByIdRefs s ((regions.map Prod.snd).flatten)).foldl
            mergeStepStore (s, [])).1.get := by
      have hh := hn1.symm.trans hm1
      simpa using hh
    have hF : List.Forall₂ sameExceptNumber
        ((dedupByIdRefs s ((regions.map Prod.snd).flatten)).map
          ((dedupByIdRefs s ((regions.map Prod.snd).flatten)).foldl
            mergeStepStore (s, [])).1.get)
        ((dedupByIdRefs s ((regions.map Prod.snd).flatten)).map s.get) :=
      hnews ▸ hn2
    rw [List.forall₂_map_left_iff, List.forall₂_map_right_iff,
      List.forall₂_same] at hF
    intro r
    by_cases hr : r ∈ dedupByIdRefs s ((regions.map Prod.snd).flatten)
    · rw [hchst1]
      exact hF r hr
    · rw [hchst1]
      have heq := hm2 r hr
      rw [heq]
      exact ⟨rfl, rfl, rfl, rfl, rfl, rfl, rfl, rfl⟩

def storeEx : Store := ⟨[mkRec "u1" "uk" 50, mkRec "l1" "local" 50]⟩

def regionsEx : List (String × List Nat) := [("uk", [0]), ("local", [1])]

/-- Witness for C10 on a two-region store: uk caches record 0 (number 50),
local caches record 1 (number 50). -/
theorem channels_all_inplace_witness :
    (((regionsEx.map Prod.snd).flatten).Nodup ∧
     ∀ r ∈ (regionsEx.map Prod.snd).flatten, r < storeEx.recs.length) ∧
    ((channels_all_store storeEx regionsEx).2.map
        (channels_all_store storeEx regionsEx).1.get =
       channels_all (regionsEx.map (fun rl => (rl.1, rl.2.map storeEx.get))) ∧
     (∀ r, r ∉ (channels_all_store storeEx regionsEx).2 →
        (channels_all_store storeEx regionsEx).1.get r = storeEx.get r) ∧
     (∀ r, sameExceptNumber ((channels_all_store storeEx regionsEx).1.get r)
        (storeEx.get r))) :=
  ⟨⟨by decide, by decide⟩,
   channels_all_inplace storeEx regionsEx (by decide) (by decide)⟩
